import Mathlib

/-!
Verification of the security.txt line/field parser (src/lib.rs).

The development shallowly embeds the Rust source: `split_at_str`,
`Field::from_str`, `Line::from_str` and the `ParseError` conversions are
translated directly.  The three external value parsers (the `url` crate's
`Url::parse`, the `language_tags` crate's `LanguageTag::from_str`, and
chrono's `DateTime::parse_from_str`) are not part of this repository; they
are modelled from the specification's description of their grammars, each
with a doc comment saying so.
-/

namespace SecurityTxt

/-- The conventional name of the file (constant `FILENAME` in the source). -/
def FILENAME : String := r"security.txt"

/-- The path under which security.txt MUST be placed, when served over HTTP. -/
def WELL_KNOWN_PATH : String := r"/.well-known/security.txt"

/-- The required file format of the security.txt file (MUST be plain text). -/
def MIMETYPE : String := r"text/plain"

/-- Splits a character list at the first occurrence of `p`: the embedding of
Rust's `string.splitn(2, pattern)` as used by `split_at_str`.  Returns the
part before the first `p` and the part after it, or `none` when `p` does not
occur. -/
def splitAtChar (p : Char) : List Char → Option (List Char × List Char)
  | [] => none
  | c :: rest =>
    if c = p then some ([], rest)
    else
      match splitAtChar p rest with
      | some (a, b) => some (c :: a, b)
      | none => none

/-- Embedding of the source's `split_at_str`: splits a string at the first
occurrence of `pattern`, returning the two sides, or `none` when the pattern
is absent. -/
def split_at_str (string : String) (pattern : Char) : Option (String × String) :=
  match splitAtChar pattern string.data with
  | some (a, b) => some (String.mk a, String.mk b)
  | none => none

/-- Embedding of Rust's `str::split(p)`: splits on every occurrence of `p`,
keeping empty pieces, so the result always has at least one element
(`"".split(p)` gives `[""]`, `"a,".split(p)` gives `["a", ""]`). -/
def splitOnChar (p : Char) : List Char → List (List Char)
  | [] => [[]]
  | c :: rest =>
    match splitOnChar p rest with
    | [] => [[c]]
    | a :: as => if c = p then [] :: a :: as else (c :: a) :: as

/-- Embedding of Rust's `str::to_lowercase` for the ASCII inputs that occur
in field names: maps `Char.toLower` (which lowercases exactly the ASCII
letters) over the characters. -/
def toLowercase (s : String) : String := String.mk (s.data.map Char.toLower)

/-- The letter-casings of a lowercase name `t`: `s` is a casing of `t` when
lowercasing each character of `s` yields exactly `t`. -/
def isCasing (s t : String) : Bool := s.data.map Char.toLower == t.data

/-! ### Model of the url crate -/

/-- Error cases of the modelled URL parser, mirroring the `url` crate's
`ParseError` variants that the model can produce. -/
inductive UrlParseError
  | relativeUrlWithoutBase
  | emptyHost
  | invalidDomainCharacter
deriving DecidableEq, Repr

/-- Textual description of a URL parse error, modelling the crate's
`Display` implementation. -/
def UrlParseError.message : UrlParseError → String
  | .relativeUrlWithoutBase => r"relative URL without a base"
  | .emptyHost => r"empty host"
  | .invalidDomainCharacter => r"invalid domain character"

/-- An absolute URL value as produced by the modelled parser: a lowercased
scheme, a host (empty for opaque, non-authority URLs) and the remainder. -/
structure Url where
  scheme : String
  host : String
  path : String
deriving DecidableEq, Repr

/-- Characters allowed in a URL scheme after the initial letter
(RFC 3986: ALPHA / DIGIT / `+` / `-` / `.`). -/
def isSchemeChar (c : Char) : Bool := c.isAlphanum || c = '+' || c = '-' || c = '.'

/-- A valid scheme is a letter followed by scheme characters. -/
def validScheme : List Char → Bool
  | [] => false
  | c :: rest => c.isAlpha && rest.all isSchemeChar

/-- Characters the modelled parser accepts in a registered-name host. -/
def isDomainChar (c : Char) : Bool := c.isAlphanum || c = '-' || c = '.'

/-- Modelled from the spec: the `url` crate's `Url::parse` (not part of this
repository), simplified to the absolute-URL grammar the spec names: a valid
scheme followed by `:`, then either `//` with a nonempty host of domain
characters and an optional path, or a nonempty opaque remainder.  Anything
without a scheme and colon is a relative URL without a base. -/
def Url.parse (s : String) : Except UrlParseError Url :=
  match splitAtChar ':' s.data with
  | none => .error .relativeUrlWithoutBase
  | some (schemeChars, rest) =>
    if validScheme schemeChars then
      match rest with
      | '/' :: '/' :: hostPath =>
        let host := hostPath.takeWhile (fun c => c ≠ '/')
        let path := hostPath.dropWhile (fun c => c ≠ '/')
        if host.isEmpty then .error .emptyHost
        else if host.all isDomainChar then
          .ok ⟨String.mk (schemeChars.map Char.toLower), String.mk host, String.mk path⟩
        else .error .invalidDomainCharacter
      | _ =>
        if rest.isEmpty then .error .emptyHost
        else .ok ⟨String.mk (schemeChars.map Char.toLower), String.mk [], String.mk rest⟩
    else .error .relativeUrlWithoutBase

/-! ### Model of the language_tags crate -/

/-- Error cases of the modelled BCP 47 language-tag validator. -/
inductive LangTagError
  | emptySubtag
  | subtagTooLong
  | invalidCharacter
deriving DecidableEq, Repr

/-- Textual description of a language-tag error, modelling the crate's
`Display` implementation. -/
def LangTagError.message : LangTagError → String
  | .emptySubtag => r"empty subtag"
  | .subtagTooLong => r"subtag too long"
  | .invalidCharacter => r"invalid character"

/-- A validated BCP 47 language tag, kept as its list of subtags. -/
structure LanguageTag where
  subtags : List String
deriving DecidableEq, Repr

/-- Validity check for one non-primary subtag: nonempty, at most eight
characters, ASCII alphanumeric. -/
def checkSubtag (sub : List Char) : Option LangTagError :=
  if sub.isEmpty then some .emptySubtag
  else if sub.length > 8 then some .subtagTooLong
  else if sub.all Char.isAlphanum then none
  else some .invalidCharacter

/-- First error among a list of subtags, if any. -/
def firstSubtagError : List (List Char) → Option LangTagError
  | [] => none
  | sub :: rest =>
    match checkSubtag sub with
    | some e => some e
    | none => firstSubtagError rest

/-- Modelled from the spec: the `language_tags` crate's
`LanguageTag::from_str` (not part of this repository), simplified to BCP 47
well-formedness: subtags separated by `-`, the primary subtag nonempty, at
most eight characters and all ASCII letters, each following subtag nonempty,
at most eight characters and ASCII alphanumeric.  The empty string has an
empty primary subtag and is rejected. -/
def LanguageTag.from_str (s : String) : Except LangTagError LanguageTag :=
  match splitOnChar '-' s.data with
  | [] => .error .emptySubtag
  | primary :: rest =>
    if primary.isEmpty then .error .emptySubtag
    else if primary.length > 8 then .error .subtagTooLong
    else if !(primary.all Char.isAlpha) then .error .invalidCharacter
    else
      match firstSubtagError rest with
      | some e => .error e
      | none => .ok ⟨(primary :: rest).map String.mk⟩

/-! ### Model of chrono -/

/-- A point in time with a fixed UTC offset, the payload type of `Expires`
(chrono's `DateTime<FixedOffset>`).  The source never constructs one. -/
structure DateTime where
  secs : Int
  offsetSecs : Int
deriving DecidableEq, Repr

/-- Error kinds of chrono's parser that the empty format string can
produce. -/
inductive ChronoParseError
  | tooLong
  | notEnough
deriving DecidableEq, Repr

/-- Textual description of a chrono parse error, modelling chrono's
`Display` implementation for `TOO_LONG` and `NOT_ENOUGH`. -/
def ChronoParseError.message : ChronoParseError → String
  | .tooLong => r"trailing input"
  | .notEnough => r"input is not enough for unique date and time"

/-- Modelled from the spec: chrono's `DateTime::parse_from_str` applied with
the empty format string (not part of this repository).  The empty format
consumes no input, so any nonempty input leaves trailing input (`TOO_LONG`),
and empty input parses no fields, which cannot resolve to a date-time
(`NOT_ENOUGH`); it therefore fails on every input. -/
def chronoParseEmptyFormat (s : String) : Except ChronoParseError DateTime :=
  if s.data.isEmpty then .error .notEnough else .error .tooLong

/-- Embedding of the source's `parse_rfc5322_datetime`: the placeholder calls
the date parser with the empty format pattern. -/
def parse_rfc5322_datetime (s : String) : Except ChronoParseError DateTime :=
  chronoParseEmptyFormat s

/-! ### The Field and Line parsers -/

/-- Signifies an error in the specification (the source's `ParseError`,
wrapping a human-readable message). -/
structure ParseError where
  message : String
deriving DecidableEq, Repr

/-- Embedding of `impl From of url::ParseError for ParseError`. -/
def ParseError.fromUrl (e : UrlParseError) : ParseError := ⟨e.message⟩

/-- Embedding of `impl From of language_tags::Error for ParseError`. -/
def ParseError.fromLangTag (e : LangTagError) : ParseError := ⟨e.message⟩

/-- Embedding of `impl From of chrono::format::ParseError for ParseError`. -/
def ParseError.fromChrono (e : ChronoParseError) : ParseError := ⟨e.message⟩

/-- The `Field` enumeration of the source: each known field owns its
validated payload, the fallback owns the raw name and value. -/
inductive Field
  | Acknowledgments (url : Url)
  | Canonical (url : Url)
  | Contact (url : Url)
  | Encryption (url : Url)
  | Expires (t : DateTime)
  | Hiring (url : Url)
  | Policy (url : Url)
  | PreferredLanguages (tags : List LanguageTag)
  | Extension (name : String) (value : String)
deriving DecidableEq, Repr

/-- Embedding of Rust's `iter.map(f).collect::<Result<_, _>>()`: applies `f`
in order and stops at the first error. -/
def mapCollect (f : α → Except ε β) : List α → Except ε (List β)
  | [] => .ok []
  | a :: rest =>
    match f a with
    | .error e => .error e
    | .ok b =>
      match mapCollect f rest with
      | .error e => .error e
      | .ok bs => .ok (b :: bs)

/-- Embedding of `value.split(',')` producing strings. -/
def splitOnComma (value : String) : List String :=
  (splitOnChar ',' value.data).map String.mk

/-- Shared shape of the six URL-typed arms: `ctor(Url::parse(value)?)`. -/
def urlField (ctor : Url → Field) (value : String) : Except ParseError Field :=
  match Url.parse value with
  | .ok u => .ok (ctor u)
  | .error e => .error (ParseError.fromUrl e)

/-- The `expires` arm: `Expires(parse_rfc5322_datetime(value)?)`. -/
def expiresField (value : String) : Except ParseError Field :=
  match parse_rfc5322_datetime value with
  | .ok t => .ok (Field.Expires t)
  | .error e => .error (ParseError.fromChrono e)

/-- The `preferred-languages` arm: split on commas, validate every tag,
stop at the first failure. -/
def preferredLanguagesField (value : String) : Except ParseError Field :=
  match mapCollect LanguageTag.from_str (splitOnComma value) with
  | .ok tags => .ok (Field.PreferredLanguages tags)
  | .error e => .error (ParseError.fromLangTag e)

/-- The dispatch on the lowercased field name: the body of the `match` in
the source's `Field::from_str`, in the source's arm order. -/
def dispatchField (name value : String) : Except ParseError Field :=
  if toLowercase name = r"acknowledgments" then urlField Field.Acknowledgments value
  else if toLowercase name = r"canonical" then urlField Field.Canonical value
  else if toLowercase name = r"contact" then urlField Field.Contact value
  else if toLowercase name = r"encryption" then urlField Field.Encryption value
  else if toLowercase name = r"expires" then expiresField value
  else if toLowercase name = r"hiring" then urlField Field.Hiring value
  else if toLowercase name = r"policy" then urlField Field.Policy value
  else if toLowercase name = r"preferred-languages" then preferredLanguagesField value
  else .ok (Field.Extension name value)

/-- Embedding of `Field::from_str`: split at the first colon, dispatch on
the lowercased name; fail with the grammar error when no colon exists. -/
def Field.from_str (string : String) : Except ParseError Field :=
  match split_at_str string ':' with
  | some (name, value) => dispatchField name value
  | none => .error ⟨r"Missing `:`"⟩

/-- The `Line` enumeration of the source. -/
inductive Line
  | Field (field : Field)
  | Comment (text : String)
deriving DecidableEq, Repr

/-- Embedding of `Line::from_str`: a line starting with `#` is a comment
holding the rest verbatim; any other line is forwarded to the field
parser. -/
def Line.from_str (string : String) : Except ParseError Line :=
  match string.data with
  | '#' :: rest => .ok (.Comment (String.mk rest))
  | _ =>
    match Field.from_str string with
    | .ok f => .ok (.Field f)
    | .error e => .error e

/-- The eight field names the parser recognizes, in the source's arm
order. -/
def knownNames : List String :=
  [r"acknowledgments", r"canonical", r"contact", r"encryption",
   r"expires", r"hiring", r"policy", r"preferred-languages"]

/-- The URL payload of a URL-typed field, `none` for the other variants. -/
def urlPayload : Field → Option Url
  | .Acknowledgments u => some u
  | .Canonical u => some u
  | .Contact u => some u
  | .Encryption u => some u
  | .Hiring u => some u
  | .Policy u => some u
  | _ => none

/-- Whether a parse result is an error. -/
def isErr : Except ParseError Field → Bool
  | .error _ => true
  | .ok _ => false

/-! ### Helper lemmas -/

theorem mk_data (s : String) : String.mk s.data = s := rfl

theorem data_append (a b : String) : (a ++ b).data = a.data ++ b.data := by
  cases a
  cases b
  rfl

theorem data_colon (name rest : String) :
    (name ++ r":" ++ rest).data = name.data ++ ':' :: rest.data := by
  rw [data_append, data_append, List.append_assoc]
  rfl

theorem splitAtChar_append (p : Char) (a b : List Char) (h : p ∉ a) :
    splitAtChar p (a ++ p :: b) = some (a, b) := by
  induction a with
  | nil => simp [splitAtChar]
  | cons c cs ih =>
    have hc : c ≠ p := fun e => h (e ▸ List.mem_cons_self c cs)
    have h' : p ∉ cs := fun hm => h (List.mem_cons_of_mem _ hm)
    simp [splitAtChar, hc, ih h']

theorem splitAtChar_eq_none (p : Char) (l : List Char) (h : p ∉ l) :
    splitAtChar p l = none := by
  induction l with
  | nil => rfl
  | cons c cs ih =>
    have hc : c ≠ p := fun e => h (e ▸ List.mem_cons_self c cs)
    have h' : p ∉ cs := fun hm => h (List.mem_cons_of_mem _ hm)
    simp [splitAtChar, hc, ih h']

theorem from_str_of_data (s name value : String)
    (hd : s.data = name.data ++ ':' :: value.data) (h : ':' ∉ name.data) :
    Field.from_str s = dispatchField name value := by
  unfold Field.from_str split_at_str
  rw [hd, splitAtChar_append _ _ _ h]

theorem from_str_no_colon (s : String) (h : ':' ∉ s.data) :
    Field.from_str s = Except.error ⟨r"Missing `:`"⟩ := by
  unfold Field.from_str split_at_str
  rw [splitAtChar_eq_none _ _ h]

theorem toLowercase_of_isCasing (s t : String) (h : isCasing s t = true) :
    toLowercase s = t := by
  unfold isCasing at h
  have h' : s.data.map Char.toLower = t.data := eq_of_beq h
  unfold toLowercase
  rw [h']

theorem not_colon_of_isCasing (s t : String) (h : isCasing s t = true)
    (ht : ':' ∉ t.data) : ':' ∉ s.data := by
  intro hs
  apply ht
  unfold isCasing at h
  have h' : s.data.map Char.toLower = t.data := eq_of_beq h
  have h2 : Char.toLower ':' ∈ s.data.map Char.toLower :=
    List.mem_map_of_mem Char.toLower hs
  have h3 : Char.toLower ':' = ':' := by decide
  rw [h3, h'] at h2
  exact h2

theorem dispatch_acknowledgments (name value : String)
    (h : toLowercase name = r"acknowledgments") :
    dispatchField name value = urlField Field.Acknowledgments value := by
  unfold dispatchField
  rw [h]
  simp

theorem dispatch_canonical (name value : String)
    (h : toLowercase name = r"canonical") :
    dispatchField name value = urlField Field.Canonical value := by
  unfold dispatchField
  rw [h]
  simp

theorem dispatch_contact (name value : String)
    (h : toLowercase name = r"contact") :
    dispatchField name value = urlField Field.Contact value := by
  unfold dispatchField
  rw [h]
  simp

theorem dispatch_encryption (name value : String)
    (h : toLowercase name = r"encryption") :
    dispatchField name value = urlField Field.Encryption value := by
  unfold dispatchField
  rw [h]
  simp

theorem dispatch_expires (name value : String)
    (h : toLowercase name = r"expires") :
    dispatchField name value = expiresField value := by
  unfold dispatchField
  rw [h]
  simp

theorem dispatch_hiring (name value : String)
    (h : toLowercase name = r"hiring") :
    dispatchField name value = urlField Field.Hiring value := by
  unfold dispatchField
  rw [h]
  simp

theorem dispatch_policy (name value : String)
    (h : toLowercase name = r"policy") :
    dispatchField name value = urlField Field.Policy value := by
  unfold dispatchField
  rw [h]
  simp

theorem dispatch_preferred_languages (name value : String)
    (h : toLowercase name = r"preferred-languages") :
    dispatchField name value = preferredLanguagesField value := by
  unfold dispatchField
  rw [h]
  simp

theorem dispatch_extension (name value : String)
    (hm : toLowercase name ∉ knownNames) :
    dispatchField name value = Except.ok (Field.Extension name value) := by
  have h1 : toLowercase name ≠ r"acknowledgments" := fun e => hm (by rw [e]; decide)
  have h2 : toLowercase name ≠ r"canonical" := fun e => hm (by rw [e]; decide)
  have h3 : toLowercase name ≠ r"contact" := fun e => hm (by rw [e]; decide)
  have h4 : toLowercase name ≠ r"encryption" := fun e => hm (by rw [e]; decide)
  have h5 : toLowercase name ≠ r"expires" := fun e => hm (by rw [e]; decide)
  have h6 : toLowercase name ≠ r"hiring" := fun e => hm (by rw [e]; decide)
  have h7 : toLowercase name ≠ r"policy" := fun e => hm (by rw [e]; decide)
  have h8 : toLowercase name ≠ r"preferred-languages" := fun e => hm (by rw [e]; decide)
  unfold dispatchField
  rw [if_neg h1, if_neg h2, if_neg h3, if_neg h4, if_neg h5, if_neg h6,
    if_neg h7, if_neg h8]

theorem mapCollect_of_forall_ok (f : α → Except ε β) :
    ∀ (l : List α) (tags : List β), l.map f = tags.map Except.ok →
    mapCollect f l = Except.ok tags := by
  intro l
  induction l with
  | nil =>
    intro tags h
    cases tags with
    | nil => rfl
    | cons b bs => simp at h
  | cons a as ih =>
    intro tags h
    cases tags with
    | nil => simp at h
    | cons b bs =>
      simp only [List.map_cons] at h
      injection h with h1 h2
      unfold mapCollect
      rw [h1, ih bs h2]

theorem mapCollect_error_of_first (f : α → Except ε β) (e : ε) :
    ∀ (pre : List α) (bad : α) (post : List α),
    (∀ t ∈ pre, ∃ b, f t = Except.ok b) → f bad = Except.error e →
    mapCollect f (pre ++ bad :: post) = Except.error e := by
  intro pre
  induction pre with
  | nil =>
    intro bad post _ hbad
    simp [mapCollect, hbad]
  | cons a as ih =>
    intro bad post hpre hbad
    obtain ⟨b, hb⟩ := hpre a (List.mem_cons_self a as)
    have h' : ∀ t ∈ as, ∃ b, f t = Except.ok b :=
      fun t ht => hpre t (List.mem_cons_of_mem _ ht)
    simp [mapCollect, hb, ih bad post h' hbad]

theorem mapCollect_ok_mem (f : α → Except ε β) :
    ∀ (l : List α) (tags : List β), mapCollect f l = Except.ok tags →
    ∀ t ∈ l, ∃ b, f t = Except.ok b := by
  intro l
  induction l with
  | nil =>
    intro tags _ t ht
    simp at ht
  | cons a as ih =>
    intro tags h t ht
    unfold mapCollect at h
    cases hfa : f a with
    | error e => rw [hfa] at h; simp at h
    | ok b =>
      rw [hfa] at h
      cases hmc : mapCollect f as with
      | error e => rw [hmc] at h; simp at h
      | ok bs =>
        rcases List.mem_cons.mp ht with rfl | hmem
        · exact ⟨b, hfa⟩
        · exact ih bs hmc t hmem

theorem mapCollect_ok_ne_nil (f : α → Except ε β) (a : α) (as : List α)
    (tags : List β) (h : mapCollect f (a :: as) = Except.ok tags) :
    tags ≠ [] := by
  unfold mapCollect at h
  cases hfa : f a with
  | error e => rw [hfa] at h; simp at h
  | ok b =>
    rw [hfa] at h
    cases hmc : mapCollect f as with
    | error e => rw [hmc] at h; simp at h
    | ok bs =>
      rw [hmc] at h
      simp at h
      rw [← h]
      simp

theorem splitOnChar_ne_nil (p : Char) (l : List Char) : splitOnChar p l ≠ [] := by
  cases l with
  | nil => simp [splitOnChar]
  | cons c cs =>
    unfold splitOnChar
    cases h : splitOnChar p cs with
    | nil => simp
    | cons a as =>
      dsimp only
      split <;> simp

theorem splitOnComma_ne_nil (v : String) : splitOnComma v ≠ [] := by
  unfold splitOnComma
  intro h
  exact splitOnChar_ne_nil ',' v.data (List.map_eq_nil_iff.mp h)

theorem urlField_spec (ctor : Url → Field)
    (hctor : ∀ u, urlPayload (ctor u) = some u) (value : String) :
    (∀ e, Url.parse value = Except.error e →
        urlField ctor value = Except.error ⟨e.message⟩) ∧
    (∀ f u, urlField ctor value = Except.ok f → urlPayload f = some u →
        Url.parse value = Except.ok u) := by
  constructor
  · intro e he
    unfold urlField
    rw [he]
    rfl
  · intro f u hf hu
    unfold urlField at hf
    cases hp : Url.parse value with
    | error e =>
      rw [hp] at hf
      exact absurd hf (by simp)
    | ok u' =>
      rw [hp] at hf
      have hf' : Except.ok (ctor u') = Except.ok f := hf
      injection hf' with h1
      rw [← h1, hctor u'] at hu
      injection hu with h2
      rw [h2]

theorem urlField_not_pl (ctor : Url → Field)
    (hctor : ∀ u tags, ctor u ≠ Field.PreferredLanguages tags)
    (v : String) (tags : List LanguageTag) :
    urlField ctor v ≠ Except.ok (Field.PreferredLanguages tags) := by
  unfold urlField
  cases hp : Url.parse v with
  | ok u =>
    intro hc
    have hc' : Except.ok (ctor u) = Except.ok (Field.PreferredLanguages tags) := hc
    injection hc' with h1
    exact hctor u tags h1
  | error e =>
    intro hc
    exact absurd hc (by simp)

theorem expiresField_not_pl (v : String) (tags : List LanguageTag) :
    expiresField v ≠ Except.ok (Field.PreferredLanguages tags) := by
  unfold expiresField parse_rfc5322_datetime chronoParseEmptyFormat
  cases hv : v.data.isEmpty <;> intro hc <;> exact absurd hc (by simp)

theorem pl_tags_ne_nil (s : String) (tags : List LanguageTag)
    (h : Field.from_str s = Except.ok (Field.PreferredLanguages tags)) :
    tags ≠ [] := by
  unfold Field.from_str split_at_str at h
  cases hsp : splitAtChar ':' s.data with
  | none =>
    rw [hsp] at h
    exact absurd h (by simp)
  | some nv =>
    obtain ⟨nd, vd⟩ := nv
    rw [hsp] at h
    have h' : dispatchField (String.mk nd) (String.mk vd) =
        Except.ok (Field.PreferredLanguages tags) := h
    set n := String.mk nd with hn
    set v := String.mk vd with hv
    unfold dispatchField at h'
    by_cases h1 : toLowercase n = r"acknowledgments"
    · rw [if_pos h1] at h'
      exact absurd h' (urlField_not_pl _ (fun u tg hh => Field.noConfusion hh) _ _)
    rw [if_neg h1] at h'
    by_cases h2 : toLowercase n = r"canonical"
    · rw [if_pos h2] at h'
      exact absurd h' (urlField_not_pl _ (fun u tg hh => Field.noConfusion hh) _ _)
    rw [if_neg h2] at h'
    by_cases h3 : toLowercase n = r"contact"
    · rw [if_pos h3] at h'
      exact absurd h' (urlField_not_pl _ (fun u tg hh => Field.noConfusion hh) _ _)
    rw [if_neg h3] at h'
    by_cases h4 : toLowercase n = r"encryption"
    · rw [if_pos h4] at h'
      exact absurd h' (urlField_not_pl _ (fun u tg hh => Field.noConfusion hh) _ _)
    rw [if_neg h4] at h'
    by_cases h5 : toLowercase n = r"expires"
    · rw [if_pos h5] at h'
      exact absurd h' (expiresField_not_pl _ _)
    rw [if_neg h5] at h'
    by_cases h6 : toLowercase n = r"hiring"
    · rw [if_pos h6] at h'
      exact absurd h' (urlField_not_pl _ (fun u tg hh => Field.noConfusion hh) _ _)
    rw [if_neg h6] at h'
    by_cases h7 : toLowercase n = r"policy"
    · rw [if_pos h7] at h'
      exact absurd h' (urlField_not_pl _ (fun u tg hh => Field.noConfusion hh) _ _)
    rw [if_neg h7] at h'
    by_cases h8 : toLowercase n = r"preferred-languages"
    · rw [if_pos h8] at h'
      unfold preferredLanguagesField at h'
      obtain ⟨a, as, hsc⟩ : ∃ a as, splitOnComma v = a :: as := by
        cases hc : splitOnComma v with
        | nil => exact absurd hc (splitOnComma_ne_nil v)
        | cons a as => exact ⟨a, as, rfl⟩
      rw [hsc] at h'
      cases hmc : mapCollect LanguageTag.from_str (a :: as) with
      | error e =>
        rw [hmc] at h'
        exact absurd h' (by simp)
      | ok tags' =>
        rw [hmc] at h'
        have h'' : Except.ok (Field.PreferredLanguages tags') =
            Except.ok (Field.PreferredLanguages tags) := h'
        injection h'' with hfld
        injection hfld with htags
        rw [← htags]
        exact mapCollect_ok_ne_nil _ _ _ _ hmc
    rw [if_neg h8] at h'
    have h'' : Except.ok (Field.Extension n v) =
        Except.ok (Field.PreferredLanguages tags) := h'
    injection h'' with hfld
    exact Field.noConfusion hfld

theorem line_from_str_not_hash (s : String) (h : s.data.head? ≠ some '#') :
    Line.from_str s =
      match Field.from_str s with
      | .ok f => .ok (.Field f)
      | .error e => .error e := by
  unfold Line.from_str
  cases hd : s.data with
  | nil => rfl
  | cons c cs =>
    have hc : c ≠ '#' := by
      rw [hd] at h
      simpa using h
    split
    · rename_i rest heq
      injection heq with hc' _
      exact absurd hc' hc
    · rfl

/-! ### The claims -/

/-- C1: for every letter-casing of `expires` and every value, the parse
fails: the source's placeholder calls the date parser with the empty format
pattern, which leaves trailing input on any nonempty value and resolves no
fields on the empty value, so no RFC 5322 value is ever accepted and
`Field::from_str` never returns `Ok(Field::Expires(t))`. -/
theorem expires_always_fails (name value : String)
    (h : isCasing name (r"expires") = true) :
    Field.from_str (name ++ r":" ++ value) =
      Except.error (ParseError.fromChrono
        (if value.data.isEmpty then ChronoParseError.notEnough
         else ChronoParseError.tooLong)) := by
  have hlow := toLowercase_of_isCasing _ _ h
  have hnc := not_colon_of_isCasing _ _ h (by decide)
  rw [from_str_of_data _ name value (data_colon name value) hnc,
    dispatch_expires _ _ hlow]
  unfold expiresField parse_rfc5322_datetime chronoParseEmptyFormat
  cases hv : value.data.isEmpty with
  | true => simp [hv]
  | false => simp [hv]

/-- Witness for C1: the well-formed RFC 5322 value is rejected with the
trailing-input error. -/
theorem expires_always_fails_witness :
    Field.from_str (r"Expires:Tue, 16 Jun 2020 10:00:00 +0000") =
      Except.error ⟨r"trailing input"⟩ :=
  expires_always_fails (r"Expires") (r"Tue, 16 Jun 2020 10:00:00 +0000")
    (by decide)

/-- C2: for each of the six URL-typed field names in any letter-casing,
parsing `name:https://example.com` yields the corresponding variant wrapping
the URL parsed from `https://example.com`. -/
theorem url_fields_parse_example (name : String) (u : Url)
    (hu : Url.parse (r"https://example.com") = Except.ok u) :
    (isCasing name (r"acknowledgments") = true →
      Field.from_str (name ++ r":https://example.com") =
        Except.ok (Field.Acknowledgments u)) ∧
    (isCasing name (r"canonical") = true →
      Field.from_str (name ++ r":https://example.com") =
        Except.ok (Field.Canonical u)) ∧
    (isCasing name (r"contact") = true →
      Field.from_str (name ++ r":https://example.com") =
        Except.ok (Field.Contact u)) ∧
    (isCasing name (r"encryption") = true →
      Field.from_str (name ++ r":https://example.com") =
        Except.ok (Field.Encryption u)) ∧
    (isCasing name (r"hiring") = true →
      Field.from_str (name ++ r":https://example.com") =
        Except.ok (Field.Hiring u)) ∧
    (isCasing name (r"policy") = true →
      Field.from_str (name ++ r":https://example.com") =
        Except.ok (Field.Policy u)) := by
  have hd : (name ++ r":https://example.com").data =
      name.data ++ ':' :: (r"https://example.com").data := by
    rw [data_append]
  refine ⟨fun h => ?_, fun h => ?_, fun h => ?_, fun h => ?_, fun h => ?_,
    fun h => ?_⟩ <;>
    rw [from_str_of_data _ name (r"https://example.com") hd
      (not_colon_of_isCasing _ _ h (by decide))]
  · rw [dispatch_acknowledgments _ _ (toLowercase_of_isCasing _ _ h)]
    unfold urlField
    rw [hu]
  · rw [dispatch_canonical _ _ (toLowercase_of_isCasing _ _ h)]
    unfold urlField
    rw [hu]
  · rw [dispatch_contact _ _ (toLowercase_of_isCasing _ _ h)]
    unfold urlField
    rw [hu]
  · rw [dispatch_encryption _ _ (toLowercase_of_isCasing _ _ h)]
    unfold urlField
    rw [hu]
  · rw [dispatch_hiring _ _ (toLowercase_of_isCasing _ _ h)]
    unfold urlField
    rw [hu]
  · rw [dispatch_policy _ _ (toLowercase_of_isCasing _ _ h)]
    unfold urlField
    rw [hu]

/-- Witness for C2: all six names at concrete casings parse to the expected
variant wrapping the parsed URL. -/
theorem url_fields_parse_example_witness :
    Field.from_str (r"Acknowledgments:https://example.com") =
      Except.ok (Field.Acknowledgments ⟨r"https", r"example.com", r""⟩) ∧
    Field.from_str (r"CANONICAL:https://example.com") =
      Except.ok (Field.Canonical ⟨r"https", r"example.com", r""⟩) ∧
    Field.from_str (r"contact:https://example.com") =
      Except.ok (Field.Contact ⟨r"https", r"example.com", r""⟩) ∧
    Field.from_str (r"Encryption:https://example.com") =
      Except.ok (Field.Encryption ⟨r"https", r"example.com", r""⟩) ∧
    Field.from_str (r"HiRiNg:https://example.com") =
      Except.ok (Field.Hiring ⟨r"https", r"example.com", r""⟩) ∧
    Field.from_str (r"Policy:https://example.com") =
      Except.ok (Field.Policy ⟨r"https", r"example.com", r""⟩) :=
  ⟨(url_fields_parse_example (r"Acknowledgments") _ rfl).1 (by decide),
   (url_fields_parse_example (r"CANONICAL") _ rfl).2.1 (by decide),
   (url_fields_parse_example (r"contact") _ rfl).2.2.1 (by decide),
   (url_fields_parse_example (r"Encryption") _ rfl).2.2.2.1 (by decide),
   (url_fields_parse_example (r"HiRiNg") _ rfl).2.2.2.2.1 (by decide),
   (url_fields_parse_example (r"Policy") _ rfl).2.2.2.2.2 (by decide)⟩

/-- C3: when the part before the first colon, lowercased, is none of the
eight known field names, the parse unconditionally succeeds with an
`Extension` keeping the original-case name and the value verbatim. -/
theorem extension_verbatim (name value : String) (hnc : ':' ∉ name.data)
    (hunk : toLowercase name ∉ knownNames) :
    Field.from_str (name ++ r":" ++ value) =
      Except.ok (Field.Extension name value) := by
  rw [from_str_of_data _ name value (data_colon name value) hnc]
  exact dispatch_extension name value hunk

/-- Witness for C3: an unrecognized mixed-case name is preserved verbatim. -/
theorem extension_verbatim_witness :
    Field.from_str (r"X-Custom:hello") =
      Except.ok (Field.Extension (r"X-Custom") (r"hello")) :=
  extension_verbatim (r"X-Custom") (r"hello") (by decide) (by decide)

/-- C4: for every letter-casing of `preferred-languages`, the value is split
on commas with no trimming; when every comma-delimited substring is a valid
tag the parse succeeds with the tags in comma order, and when some substring
is invalid (all earlier ones being valid) the parse fails with that first
invalid element's error. -/
theorem preferred_languages_parse (name value : String)
    (h : isCasing name (r"preferred-languages") = true) :
    (∀ tags : List LanguageTag,
      (splitOnComma value).map LanguageTag.from_str = tags.map Except.ok →
      Field.from_str (name ++ r":" ++ value) =
        Except.ok (Field.PreferredLanguages tags)) ∧
    (∀ (pre : List String) (bad : String) (post : List String)
        (e : LangTagError),
      splitOnComma value = pre ++ bad :: post →
      (∀ t ∈ pre, ∃ tag, LanguageTag.from_str t = Except.ok tag) →
      LanguageTag.from_str bad = Except.error e →
      Field.from_str (name ++ r":" ++ value) =
        Except.error (ParseError.fromLangTag e)) := by
  have hlow := toLowercase_of_isCasing _ _ h
  have hnc := not_colon_of_isCasing _ _ h (by decide)
  have heq : Field.from_str (name ++ r":" ++ value) =
      preferredLanguagesField value := by
    rw [from_str_of_data _ name value (data_colon name value) hnc,
      dispatch_preferred_languages _ _ hlow]
  constructor
  · intro tags ht
    rw [heq]
    unfold preferredLanguagesField
    rw [mapCollect_of_forall_ok LanguageTag.from_str (splitOnComma value) tags ht]
  · intro pre bad post e hsplit hpre hbad
    rw [heq]
    unfold preferredLanguagesField
    rw [hsplit, mapCollect_error_of_first LanguageTag.from_str e pre bad post hpre hbad]

/-- Witness for C4: `en,fr,de` parses to the three tags in order, and an
invalid second element fails the whole field with that element's error. -/
theorem preferred_languages_parse_witness :
    Field.from_str (r"Preferred-Languages:en,fr,de") =
      Except.ok (Field.PreferredLanguages [⟨[r"en"]⟩, ⟨[r"fr"]⟩, ⟨[r"de"]⟩]) ∧
    Field.from_str (r"Preferred-Languages:en,???") =
      Except.error ⟨r"invalid character"⟩ := by
  constructor
  · exact (preferred_languages_parse (r"Preferred-Languages") (r"en,fr,de")
      (by decide)).1 [⟨[r"en"]⟩, ⟨[r"fr"]⟩, ⟨[r"de"]⟩] (by rfl)
  · exact (preferred_languages_parse (r"Preferred-Languages") (r"en,???")
      (by decide)).2 [r"en"] (r"???") [] LangTagError.invalidCharacter
      (by rfl)
      (by
        intro t ht
        rw [List.mem_singleton] at ht
        subst ht
        exact ⟨⟨[r"en"]⟩, rfl⟩)
      (by rfl)

/-- C5: the input is split at the first colon only — the field name is the
part before the first colon and the raw value is everything after it, colons
included — and an input with no colon at all always yields the grammar error
with the missing-separator message. -/
theorem split_first_colon (s : String) :
    (∀ name rest : String, ':' ∉ name.data → s = name ++ r":" ++ rest →
      split_at_str s ':' = some (name, rest) ∧
        Field.from_str s = dispatchField name rest) ∧
    (':' ∉ s.data → Field.from_str s = Except.error ⟨r"Missing `:`"⟩) := by
  constructor
  · intro name rest h hs
    subst hs
    constructor
    · unfold split_at_str
      rw [data_colon, splitAtChar_append _ _ _ h]
    · exact from_str_of_data _ name rest (data_colon name rest) h
  · exact from_str_no_colon s

/-- Witness for C5: a value containing colons is kept whole after the first
colon, and a colon-free line yields the grammar error. -/
theorem split_first_colon_witness :
    split_at_str (r"a:b:c") ':' = some ((r"a"), (r"b:c")) ∧
    Field.from_str (r"NoColonHere") = Except.error ⟨r"Missing `:`"⟩ :=
  ⟨(((split_first_colon (r"a:b:c")).1 (r"a") (r"b:c") (by decide) (by rfl)).1),
   (split_first_colon (r"NoColonHere")).2 (by decide)⟩

/-- C6: every input whose first character is `#` parses as a comment holding
the remainder of the line verbatim, with no trimming and no possibility of
error. -/
theorem comment_verbatim (s rest : String) (h : s.data = '#' :: rest.data) :
    Line.from_str s = Except.ok (Line.Comment rest) := by
  unfold Line.from_str
  rw [h]
  rfl

/-- Witness for C6: the leading space after `#` is preserved. -/
theorem comment_verbatim_witness :
    Line.from_str (r"# this is a note") =
      Except.ok (Line.Comment (r" this is a note")) :=
  comment_verbatim (r"# this is a note") (r" this is a note") (by decide)

/-- C7: an input not starting with `#` is forwarded whole to the field
parser — the line parse succeeds with `Line::Field(f)` exactly when the
field parse succeeds with `f`, propagates the same error otherwise, and the
empty string reaches the field parser and yields the missing-separator
grammar error. -/
theorem line_forwards_to_field (s : String) (h : s.data.head? ≠ some '#') :
    (∀ f, Field.from_str s = Except.ok f →
      Line.from_str s = Except.ok (Line.Field f)) ∧
    (∀ f, Line.from_str s = Except.ok (Line.Field f) →
      Field.from_str s = Except.ok f) ∧
    (∀ e, Field.from_str s = Except.error e →
      Line.from_str s = Except.error e) ∧
    Line.from_str (r"") = Except.error ⟨r"Missing `:`"⟩ := by
  have hl := line_from_str_not_hash s h
  refine ⟨fun f hf => ?_, fun f hf => ?_, fun e he => ?_, by rfl⟩
  · rw [hl, hf]
  · rw [hl] at hf
    cases hfs : Field.from_str s with
    | ok f' =>
      rw [hfs] at hf
      have hf' : Except.ok (Line.Field f') = Except.ok (Line.Field f) := hf
      injection hf' with h1
      injection h1 with h2
      rw [h2]
    | error e =>
      rw [hfs] at hf
      exact absurd hf (by simp)
  · rw [hl, he]

/-- Witness for C7: a field line is wrapped, and its result agrees with the
field parser. -/
theorem line_forwards_to_field_witness :
    Line.from_str (r"X-Custom:hello") =
      Except.ok (Line.Field (Field.Extension (r"X-Custom") (r"hello"))) ∧
    Line.from_str (r"NoColonHere") = Except.error ⟨r"Missing `:`"⟩ :=
  ⟨(line_forwards_to_field (r"X-Custom:hello") (by decide)).1 _ (by rfl),
   (line_forwards_to_field (r"NoColonHere") (by decide)).2.2.1 _ (by rfl)⟩

/-- C8: for every URL-typed field name in any casing, a value the URL
grammar rejects makes `Field::from_str` return a `ParseError` carrying the
URL parser's textual error description, and a URL-typed variant is only ever
constructed around a URL the grammar accepted on that very value. -/
theorem url_error_propagates (name value : String)
    (hcase : isCasing name (r"acknowledgments") = true ∨
      isCasing name (r"canonical") = true ∨
      isCasing name (r"contact") = true ∨
      isCasing name (r"encryption") = true ∨
      isCasing name (r"hiring") = true ∨
      isCasing name (r"policy") = true) :
    (∀ e : UrlParseError, Url.parse value = Except.error e →
      Field.from_str (name ++ r":" ++ value) = Except.error ⟨e.message⟩) ∧
    (∀ f u, Field.from_str (name ++ r":" ++ value) = Except.ok f →
      urlPayload f = some u → Url.parse value = Except.ok u) := by
  rcases hcase with h | h | h | h | h | h
  · rw [from_str_of_data _ name value (data_colon name value)
      (not_colon_of_isCasing _ _ h (by decide)),
      dispatch_acknowledgments _ _ (toLowercase_of_isCasing _ _ h)]
    exact urlField_spec Field.Acknowledgments (fun u => rfl) value
  · rw [from_str_of_data _ name value (data_colon name value)
      (not_colon_of_isCasing _ _ h (by decide)),
      dispatch_canonical _ _ (toLowercase_of_isCasing _ _ h)]
    exact urlField_spec Field.Canonical (fun u => rfl) value
  · rw [from_str_of_data _ name value (data_colon name value)
      (not_colon_of_isCasing _ _ h (by decide)),
      dispatch_contact _ _ (toLowercase_of_isCasing _ _ h)]
    exact urlField_spec Field.Contact (fun u => rfl) value
  · rw [from_str_of_data _ name value (data_colon name value)
      (not_colon_of_isCasing _ _ h (by decide)),
      dispatch_encryption _ _ (toLowercase_of_isCasing _ _ h)]
    exact urlField_spec Field.Encryption (fun u => rfl) value
  · rw [from_str_of_data _ name value (data_colon name value)
      (not_colon_of_isCasing _ _ h (by decide)),
      dispatch_hiring _ _ (toLowercase_of_isCasing _ _ h)]
    exact urlField_spec Field.Hiring (fun u => rfl) value
  · rw [from_str_of_data _ name value (data_colon name value)
      (not_colon_of_isCasing _ _ h (by decide)),
      dispatch_policy _ _ (toLowercase_of_isCasing _ _ h)]
    exact urlField_spec Field.Policy (fun u => rfl) value

/-- Witness for C8: `Contact:not a url` fails with the underlying URL
parser's message. -/
theorem url_error_propagates_witness :
    Field.from_str (r"Contact:not a url") =
      Except.error ⟨r"relative URL without a base"⟩ :=
  (url_error_propagates (r"Contact") (r"not a url")
      (Or.inr (Or.inr (Or.inl (by decide))))).1
    UrlParseError.relativeUrlWithoutBase (by rfl)

/-- C9: an input beginning with a colon has the empty field name, which is
unrecognized, so the parse succeeds with an `Extension` whose stored name is
the empty string and whose value is the text after the colon. -/
theorem empty_name_extension (value : String) :
    Field.from_str (r":" ++ value) =
      Except.ok (Field.Extension (r"") value) := by
  have hd : (r":" ++ value).data = (r"").data ++ ':' :: value.data := by
    rw [data_append]
    rfl
  rw [from_str_of_data _ (r"") value hd (by decide)]
  exact dispatch_extension (r"") value (by decide)

/-- C10: for every letter-casing of `preferred-languages`, a value with an
empty comma-delimited element — in particular the empty value and a value
with a trailing comma — yields a `ParseError`, and the parser never returns
a `PreferredLanguages` field holding an empty tag list. -/
theorem preferred_languages_never_empty (name value : String)
    (h : isCasing name (r"preferred-languages") = true) :
    ((r"") ∈ splitOnComma value →
      isErr (Field.from_str (name ++ r":" ++ value)) = true) ∧
    isErr (Field.from_str (name ++ r":")) = true ∧
    (∀ (s : String) (tags : List LanguageTag),
      Field.from_str s = Except.ok (Field.PreferredLanguages tags) →
      tags ≠ []) := by
  have hlow := toLowercase_of_isCasing _ _ h
  have hnc := not_colon_of_isCasing _ _ h (by decide)
  refine ⟨fun hmem => ?_, ?_, fun s tags hs => pl_tags_ne_nil s tags hs⟩
  · rw [from_str_of_data _ name value (data_colon name value) hnc,
      dispatch_preferred_languages _ _ hlow]
    unfold preferredLanguagesField
    cases hm : mapCollect LanguageTag.from_str (splitOnComma value) with
    | error e => rfl
    | ok tags =>
      exfalso
      obtain ⟨b, hb⟩ := mapCollect_ok_mem _ _ _ hm (r"") hmem
      have hempty : LanguageTag.from_str (r"") = Except.error LangTagError.emptySubtag := rfl
      rw [hempty] at hb
      exact absurd hb (by simp)
  · have hd : (name ++ r":").data = name.data ++ ':' :: (r"").data := by
      rw [data_append]
    rw [from_str_of_data _ name (r"") hd hnc,
      dispatch_preferred_languages _ _ hlow]
    have hm : mapCollect LanguageTag.from_str (splitOnComma (r"")) =
        Except.error LangTagError.emptySubtag := rfl
    unfold preferredLanguagesField
    rw [hm]
    rfl

/-- Witness for C10: the empty value and a trailing comma both fail. -/
theorem preferred_languages_never_empty_witness :
    isErr (Field.from_str (r"Preferred-Languages:en,")) = true ∧
    isErr (Field.from_str (r"Preferred-Languages:")) = true :=
  ⟨(preferred_languages_never_empty (r"Preferred-Languages") (r"en,")
      (by decide)).1 (by decide),
   (preferred_languages_never_empty (r"Preferred-Languages") (r"")
      (by decide)).2.1⟩

end SecurityTxt
